import Mathlib

/-
Shallow embedding of the RER-delays-analysis snapshot-to-ledger pipeline.

The definitions below embed the Python sources `src/idf_rer/siri_flatten.py`,
`src/idf_rer/polling_pipeline.py` and `src/idf_rer/prim_client.py`:

* pandas DataFrames are modelled as lists of typed row structures;
* Python strings are Lean strings; the character-level operations used by
  the pipeline (strip, startswith, the RER regex, lexicographic column
  sorting) are defined on `String.data`, since the builtin string order
  and trim helpers do not reduce in the kernel;
* timestamps are modelled as integers (minutes of local time for the
  service-day computation, seconds since the epoch elsewhere), float
  columns as rationals, and `NaN` / `None` cells as `Option` values.
-/

namespace RER

/-! ### Lexicographic comparison of strings and key tuples

pandas `sort_values` / `groupby(sort=True)` order rows by the key columns;
the key columns of this pipeline are strings (and, for the daily rebinner,
a numeric bucket start).  `charsLt` is strict lexicographic order on the
character lists underlying the strings, and `lexB` builds the strict
lexicographic order of a pair from strict orders of the components. -/

def charsLt : List Char → List Char → Bool
  | [], [] => false
  | [], _ :: _ => true
  | _ :: _, [] => false
  | a :: as, b :: bs =>
    decide (a.toNat < b.toNat) || (decide (a.toNat = b.toNat) && charsLt as bs)

theorem char_toNat_inj {a b : Char} (h : a.toNat = b.toNat) : a = b := by
  have ha := Char.ofNat_toNat a
  rw [← ha, h, Char.ofNat_toNat]

theorem charsLt_irrefl : ∀ l, charsLt l l = false
  | [] => rfl
  | a :: as => by
    simp [charsLt, charsLt_irrefl as]

theorem charsLt_trans : ∀ x y z : List Char,
    charsLt x y = true → charsLt y z = true → charsLt x z = true
  | x, y, z => by
    induction x generalizing y z with
    | nil =>
      intro hxy hyz
      cases y with
      | nil => exact absurd hxy (by simp [charsLt])
      | cons b bs =>
        cases z with
        | nil => exact absurd hyz (by simp [charsLt])
        | cons c cs => simp [charsLt]
    | cons a as ih =>
      intro hxy hyz
      cases y with
      | nil => exact absurd hxy (by simp [charsLt])
      | cons b bs =>
        cases z with
        | nil => exact absurd hyz (by simp [charsLt])
        | cons c cs =>
          simp only [charsLt, Bool.or_eq_true, Bool.and_eq_true,
            decide_eq_true_eq] at hxy hyz ⊢
          rcases hxy with h1 | ⟨h1, h1t⟩
          · rcases hyz with h2 | ⟨h2, _⟩
            · exact Or.inl (by omega)
            · exact Or.inl (by omega)
          · rcases hyz with h2 | ⟨h2, h2t⟩
            · exact Or.inl (by omega)
            · exact Or.inr ⟨by omega, ih bs cs h1t h2t⟩

theorem charsLt_eq_of_not : ∀ x y : List Char,
    charsLt x y = false → charsLt y x = false → x = y
  | x, y => by
    induction x generalizing y with
    | nil =>
      intro hxy _
      cases y with
      | nil => rfl
      | cons b bs => exact absurd hxy (by simp [charsLt])
    | cons a as ih =>
      intro hxy hyx
      cases y with
      | nil => exact absurd hyx (by simp [charsLt])
      | cons b bs =>
        simp only [charsLt, Bool.or_eq_false_iff, Bool.and_eq_false_iff,
          decide_eq_false_iff_not, decide_eq_true_eq] at hxy hyx
        have hab : a.toNat = b.toNat := by omega
        have hchar : a = b := char_toNat_inj hab
        rcases hxy.2 with h | h
        · exact absurd hab h
        · rcases hyx.2 with h2 | h2
          · exact absurd hab.symm h2
          · exact congrArg₂ List.cons hchar (ih bs h h2)

theorem charsLt_asymm {x y : List Char}
    (h : charsLt x y = true) : charsLt y x = false := by
  by_contra hc
  have h2 : charsLt y x = true := by
    cases hx : charsLt y x
    · exact absurd hx hc
    · rfl
  have := charsLt_trans x y x h h2
  rw [charsLt_irrefl] at this
  exact Bool.false_ne_true this

/-- Strict lexicographic order on a pair, given strict orders of the
components; used to build the multi-column sort keys of the pipeline. -/
def lexB {α β : Type} [DecidableEq α] (la : α → α → Bool) (lb : β → β → Bool)
    (p q : α × β) : Bool :=
  la p.1 q.1 || (decide (p.1 = q.1) && lb p.2 q.2)

theorem lexB_irrefl {α β : Type} [DecidableEq α] (la : α → α → Bool)
    (lb : β → β → Bool) (ha : ∀ a, la a a = false) (hb : ∀ b, lb b b = false) :
    ∀ p, lexB la lb p p = false := by
  intro p
  simp [lexB, ha, hb]

theorem lexB_trans {α β : Type} [DecidableEq α] (la : α → α → Bool)
    (lb : β → β → Bool)
    (hat : ∀ a b c, la a b = true → la b c = true → la a c = true)
    (hbt : ∀ a b c, lb a b = true → lb b c = true → lb a c = true) :
    ∀ p q r, lexB la lb p q = true → lexB la lb q r = true →
      lexB la lb p r = true := by
  intro p q r hpq hqr
  simp only [lexB, Bool.or_eq_true, Bool.and_eq_true, decide_eq_true_eq]
    at hpq hqr ⊢
  rcases hpq with h1 | ⟨h1, h1t⟩
  · rcases hqr with h2 | ⟨h2, _⟩
    · exact Or.inl (hat _ _ _ h1 h2)
    · exact Or.inl (h2 ▸ h1)
  · rcases hqr with h2 | ⟨h2, h2t⟩
    · exact Or.inl (h1 ▸ h2)
    · exact Or.inr ⟨h1.trans h2, hbt _ _ _ h1t h2t⟩

theorem lexB_eq_of_not {α β : Type} [DecidableEq α] (la : α → α → Bool)
    (lb : β → β → Bool)
    (hac : ∀ a b, la a b = false → la b a = false → a = b)
    (hbc : ∀ a b, lb a b = false → lb b a = false → a = b) :
    ∀ p q, lexB la lb p q = false → lexB la lb q p = false → p = q := by
  intro p q hpq hqp
  simp only [lexB, Bool.or_eq_false_iff, Bool.and_eq_false_iff,
    decide_eq_false_iff_not, decide_eq_true_eq] at hpq hqp
  have h1 : p.1 = q.1 := hac _ _ hpq.1 hqp.1
  rcases hpq.2 with h | h
  · exact absurd h1 h
  · rcases hqp.2 with h2 | h2
    · exact absurd h1.symm h2
    · exact Prod.ext h1 (hbc _ _ h h2)

/-- Strict order on integers as a boolean, for the numeric component of the
daily-rebinner group key. -/
def intLtB (a b : ℤ) : Bool := decide (a < b)

theorem intLtB_irrefl : ∀ a : ℤ, intLtB a a = false := by
  intro a
  simp [intLtB]

theorem intLtB_trans : ∀ a b c : ℤ,
    intLtB a b = true → intLtB b c = true → intLtB a c = true := by
  intro a b c h1 h2
  simp only [intLtB, decide_eq_true_eq] at h1 h2 ⊢
  omega

theorem intLtB_eq_of_not : ∀ a b : ℤ,
    intLtB a b = false → intLtB b a = false → a = b := by
  intro a b h1 h2
  simp only [intLtB, decide_eq_false_iff_not, not_lt] at h1 h2
  omega

/-! ### Rounding

`Series.round(3)` in pandas rounds half to even (numpy rounding); the
pipeline rounds every persisted mean to three decimal places. -/

/-- Round a rational to the nearest integer, ties to even (numpy/pandas
rounding mode). -/
def roundHalfEven (q : ℚ) : ℤ :=
  let f := ⌊q⌋
  let r := q - f
  if r < 1 / 2 then f
  else if 1 / 2 < r then f + 1
  else if f % 2 = 0 then f else f + 1

/-- `x.round(3)`: round to three decimal places, ties to even. -/
def round3 (q : ℚ) : ℚ := (roundHalfEven (q * 1000) : ℚ) / 1000

/-! ### Python string helpers on character lists -/

/-- Python `str.strip()` on the character list of a string. -/
def trimChars (l : List Char) : List Char :=
  ((l.dropWhile Char.isWhitespace).reverse.dropWhile Char.isWhitespace).reverse

/-- Python `str.strip()` returning a string. -/
def pyStrip (s : String) : String := String.mk (trimChars s.data)

/-- Python `str.startswith(p)` on character lists. -/
def startsWithChars : List Char → List Char → Bool
  | _, [] => true
  | [], _ :: _ => false
  | a :: as, b :: bs => decide (a = b) && startsWithChars as bs

/-- Python `a or b` for optional strings: the empty string is falsy, so the
chain falls through both on `None` and on `""`. -/
def pyStrOr (a : Option String) (dflt : String) : String :=
  match a with
  | some s => if s = "" then dflt else s
  | none => dflt

/-! ### `polling_pipeline._service_day`

A pandas local timestamp is modelled as a count of minutes of local time.
`normalize()` floors the timestamp to midnight, `.date()` is the calendar
day index, and subtracting `Timedelta(days=1)` subtracts 1440 minutes.
Integer division on `ℤ` in Lean is floor division for a positive divisor,
matching the calendar floor. -/

/-- Embeds `_service_day` of `polling_pipeline.py` (lines 20-27): the poll
timestamp is assigned to the previous calendar day when it falls strictly
before the cutoff (`cutoff_h:cutoff_m` on its own day), else to its own
calendar day.  Timestamps are minutes of local time, days are day indices. -/
def service_day (local_ts : ℤ) (cutoff_h cutoff_m : ℤ) : ℤ :=
  if local_ts < 1440 * (local_ts / 1440) + (60 * cutoff_h + cutoff_m) then
    (local_ts - 1440) / 1440
  else local_ts / 1440

end RER

/-- C3: for every valid cutover `cutoff_h:cutoff_m` and every local poll
timestamp `1440 * d + tod` (day `d`, time-of-day `tod` minutes), a poll
strictly before the cutover (in particular one minute before it) is
assigned to the previous calendar day `d - 1`, and a poll at or after the
cutover (in particular exactly at it) is assigned to the current calendar
day `d`. -/
theorem service_day_cutover (cutoff_h cutoff_m d tod : ℤ)
    (hcut0 : 0 ≤ 60 * cutoff_h + cutoff_m)
    (hcut1 : 60 * cutoff_h + cutoff_m < 1440)
    (htod0 : 0 ≤ tod) (htod1 : tod < 1440) :
    (tod < 60 * cutoff_h + cutoff_m →
      RER.service_day (1440 * d + tod) cutoff_h cutoff_m = d - 1) ∧
    (60 * cutoff_h + cutoff_m ≤ tod →
      RER.service_day (1440 * d + tod) cutoff_h cutoff_m = d) := by
  unfold RER.service_day
  constructor <;> intro h <;> split <;> omega

/-- Witness for C3 at the default 02:30 cutover: a poll at 02:29 local time
on day 5 is assigned to day 4, and a poll at exactly 02:30 is assigned to
day 5. -/
theorem service_day_cutover_witness :
    RER.service_day (1440 * 5 + 149) 2 30 = 4 ∧
    RER.service_day (1440 * 5 + 150) 2 30 = 5 := by
  constructor
  · have h := (service_day_cutover 2 30 5 149 (by decide) (by decide)
      (by decide) (by decide)).1 (by decide)
    simpa using h
  · exact (service_day_cutover 2 30 5 150 (by decide) (by decide)
      (by decide) (by decide)).2 (by decide)

namespace RER

/-! ### `siri_flatten.py`

The SIRI payload is modelled after the nesting the flattener walks:
delivery blocks, journey version frames, vehicle journeys, stop calls.
The dict-or-list tolerance of the Python code (a single JSON object is
coerced to a one-element list at every level) is resolved in the model by
always using lists.  Raw timestamp strings and `_parse_utc` are modelled
by storing the parse result directly: an `Option ℤ` (seconds since the
epoch, UTC) that is `none` exactly when the timestamp was missing or
unparseable.  ISO serialization of a parsed timestamp is modelled by
`isoZ`, an injective rendering that is never the empty string, matching
`dt.isoformat().replace("+00:00", "Z")`. -/

/-- Abstract rendering `dt.isoformat().replace("+00:00", "Z")` of a UTC
instant.  The pipeline relies only on the rendering being deterministic,
injective and non-empty, so the instant is rendered in unary (keeping the
definition kernel-computable) rather than as decimal digits. -/
def isoZ (t : ℤ) : String :=
  String.mk ((if t < 0 then ['-'] else []) ++
    List.replicate t.natAbs '9' ++ ['Z'])

theorem isoZ_ne_empty (t : ℤ) : isoZ t ≠ "" := by
  intro h
  have hlen := congrArg (fun s => s.data.length) h
  simp [isoZ] at hlen

/-- Embeds `_is_rer_line` (siri_flatten.py lines 31-35): after stripping,
the line code must match the regex `RER\s+[A-E]` case-insensitively, with
nothing else around it. -/
def rerTail : List Char → Bool
  | [] => false
  | c :: cs =>
    if c.isWhitespace then rerTail cs
    else
      (decide (c.toUpper = 'A') || decide (c.toUpper = 'B') ||
       decide (c.toUpper = 'C') || decide (c.toUpper = 'D') ||
       decide (c.toUpper = 'E')) && cs.isEmpty

/-- Is this line code an RER A-E line?  Case-insensitive, tolerant of
surrounding whitespace (regex `^\s*RER\s+([A-E])\s*$`, IGNORECASE, applied
to the stripped code). -/
def is_rer_line (s : String) : Bool :=
  match trimChars s.data with
  | c1 :: c2 :: c3 :: c4 :: rest =>
    decide (c1.toUpper = 'R') && decide (c2.toUpper = 'E') &&
    decide (c3.toUpper = 'R') && c4.isWhitespace && rerTail rest
  | _ => false

/-- One flattened arrival event (one output dict of
`flatten_estimated_timetable`).  `delay_seconds` and `lead_time_seconds`
are float columns that can be `NaN`; the timestamp columns hold an ISO
string, with `""` standing for a missing value. -/
structure Event where
  snapshot_at_utc : String
  stop_id : String
  stop_name : String
  line_code : String
  direction : String
  destination : String
  scheduled_time_utc : String
  rt_time_utc : String
  delay_seconds : Option ℚ
  lead_time_seconds : Option ℚ
  vehicle_journey_id : String
deriving DecidableEq, Repr

/-- One stop call of the payload.  `aimed_dt` / `exp_dt` hold the result of
`_parse_utc` applied to the preferred aimed / expected timestamp string
(`_pick_time` over arrival then departure): `none` when missing or
unparseable. -/
structure EstimatedCall where
  StopPointRef : Option String
  MonitoringRef : Option String
  StopPointName : Option String
  aimed_dt : Option ℤ
  exp_dt : Option ℤ
deriving DecidableEq, Repr

structure EstimatedVehicleJourney where
  PublishedLineName : Option String
  LineRef : Option String
  DirectionName : Option String
  DestinationName : Option String
  DestinationRef : Option String
  VehicleJourneyRef : Option String
  DatedVehicleJourneyRef : Option String
  EstimatedCall : List EstimatedCall
deriving DecidableEq, Repr

structure JourneyVersionFrame where
  EstimatedVehicleJourney : List EstimatedVehicleJourney
deriving DecidableEq, Repr

structure TimetableDelivery where
  EstimatedJourneyVersionFrame : List JourneyVersionFrame
deriving DecidableEq, Repr

/-- The `Siri.ServiceDelivery` part of the payload.  `ResponseTimestamp`
holds the parsed snapshot instant, `none` when missing/unparseable. -/
structure ServiceDelivery where
  ResponseTimestamp : Option ℤ
  EstimatedTimetableDelivery : List TimetableDelivery
deriving DecidableEq, Repr

/-- The line code of a journey: `PublishedLineName or LineRef or ""`,
stringified and stripped (siri_flatten.py lines 78-83). -/
def journeyLineCode (j : EstimatedVehicleJourney) : String :=
  pyStrip (pyStrOr j.PublishedLineName (pyStrOr j.LineRef ""))

/-- Build one flattened event from a stop call
(siri_flatten.py lines 98-130). -/
def mkEvent (snap : ℤ) (j : EstimatedVehicleJourney) (c : EstimatedCall) :
    Event :=
  { snapshot_at_utc := isoZ snap
    stop_id := pyStrip (pyStrOr c.StopPointRef (pyStrOr c.MonitoringRef ""))
    stop_name := pyStrip (pyStrOr c.StopPointName "")
    line_code := journeyLineCode j
    direction := pyStrip (pyStrOr j.DirectionName "")
    destination := pyStrip (pyStrOr j.DestinationName
      (pyStrOr j.DestinationRef ""))
    scheduled_time_utc := match c.aimed_dt with
      | some a => isoZ a
      | none => ""
    rt_time_utc := match c.exp_dt with
      | some e => isoZ e
      | none => ""
    delay_seconds := match c.aimed_dt, c.exp_dt with
      | some a, some e => some ((e - a : ℤ) : ℚ)
      | _, _ => none
    lead_time_seconds := match c.aimed_dt with
      | some a => some ((a - snap : ℤ) : ℚ)
      | none => none
    vehicle_journey_id := pyStrip (pyStrOr j.VehicleJourneyRef
      (pyStrOr j.DatedVehicleJourneyRef "")) }

/-- Embeds `flatten_estimated_timetable` (siri_flatten.py lines 38-132):
walk deliveries, frames and journeys, keep only journeys whose line code is
an RER line, and emit one event per stop call.  `now_utc` is the wall-clock
fallback used when the payload carries no `ResponseTimestamp`. -/
def flatten_estimated_timetable (sd : ServiceDelivery) (now_utc : ℤ) :
    List Event :=
  let snap := sd.ResponseTimestamp.getD now_utc
  sd.EstimatedTimetableDelivery.flatMap (fun d =>
    d.EstimatedJourneyVersionFrame.flatMap (fun fr =>
      (fr.EstimatedVehicleJourney.filter
          (fun j => is_rer_line (journeyLineCode j))).flatMap (fun j =>
        j.EstimatedCall.map (mkEvent snap j))))

/-! ### `polling_pipeline.build_rer_events`

The fetch and the DataFrame construction are elided; the filter chain of
lines 48-59 acts on the flattened event rows.  `Series.notna()` on an
object column whose cells are Python strings is always `True` (even for
the empty string), and on the float columns it is `False` exactly on the
`NaN` (here: `none`) cells.  `Series.between(lo, hi)` is inclusive on both
ends and `False` on `NaN`. -/

/-- pandas `notna` on a cell of a string-typed object column: a Python
`str` is never `NaN`, so this is constantly true, including for `""`. -/
def notna_str (_ : String) : Bool := true

/-- `df["lead_time_seconds"].between(0, horizon)`: inclusive bounds,
`False` on `NaN`. -/
def lead_between (e : Event) (lo hi : ℚ) : Bool :=
  match e.lead_time_seconds with
  | some l => decide (lo ≤ l) && decide (l ≤ hi)
  | none => false

/-- Lines 56-59 of `polling_pipeline.py`: keep events with a non-null
delay and a non-null scheduled timestamp, whose lead time lies within
`[0, horizon]`. -/
def delay_sched_lead_pass (e : Event) (horizon : ℚ) : Bool :=
  e.delay_seconds.isSome && notna_str e.scheduled_time_utc &&
    lead_between e 0 horizon

/-- Lines 51-59 of `polling_pipeline.py`: the full per-event predicate of
`build_rer_events` after flattening; the line filter is a case-sensitive
`str.startswith("RER ")`. -/
def build_pass (e : Event) (horizon : ℚ) : Bool :=
  startsWithChars e.line_code.data ("RER ").data &&
    delay_sched_lead_pass e horizon

/-- Embeds the filter chain of `build_rer_events` (polling_pipeline.py
lines 41-61) applied to the flattened events of one snapshot. -/
def build_rer_events (events : List Event) (horizon : ℚ) : List Event :=
  events.filter (fun e => build_pass e horizon)

/-! ### The raw ledger (`aggregate_poll`, `append_raw_poll_rows`)

A ledger CSV row.  The key columns and the local timestamp are the strings
persisted in the CSV (dedup and sort in `append_raw_poll_rows` compare the
string values read back by `read_csv`); the measures are the numeric
columns. -/

structure PollRow where
  poll_at_utc : String
  poll_at_local : String
  stop_id : String
  line_code : String
  mean_delay_s : Option ℚ
  mean_lateness_s : Option ℚ
  n : ℕ
  n_neg : ℕ
  n_pos : ℕ
deriving DecidableEq, Repr

/-- The dedup/sort key of `append_raw_poll_rows`:
`["poll_at_utc", "stop_id", "line_code"]`, compared as strings. -/
def rowKey (r : PollRow) : List Char × List Char × List Char :=
  (r.poll_at_utc.data, r.stop_id.data, r.line_code.data)

/-- Strict lexicographic order on ledger keys. -/
def keyLtB (a b : List Char × List Char × List Char) : Bool :=
  lexB charsLt (lexB charsLt charsLt) a b

theorem keyLtB_irrefl (a : List Char × List Char × List Char) :
    keyLtB a a = false :=
  lexB_irrefl _ _ charsLt_irrefl
    (lexB_irrefl _ _ charsLt_irrefl charsLt_irrefl) a

theorem keyLtB_trans {a b c : List Char × List Char × List Char}
    (h1 : keyLtB a b = true) (h2 : keyLtB b c = true) : keyLtB a c = true :=
  lexB_trans _ _ charsLt_trans
    (lexB_trans _ _ charsLt_trans charsLt_trans) a b c h1 h2

theorem keyLtB_eq_of_not {a b : List Char × List Char × List Char}
    (h1 : keyLtB a b = false) (h2 : keyLtB b a = false) : a = b :=
  lexB_eq_of_not _ _ charsLt_eq_of_not
    (lexB_eq_of_not _ _ charsLt_eq_of_not charsLt_eq_of_not) a b h1 h2

theorem keyLtB_asymm {a b : List Char × List Char × List Char}
    (h : keyLtB a b = true) : keyLtB b a = false := by
  by_contra hc
  have h2 : keyLtB b a = true := by
    cases hx : keyLtB b a
    · exact absurd hx hc
    · rfl
  have h3 := keyLtB_trans h h2
  rw [keyLtB_irrefl] at h3
  exact Bool.false_ne_true h3

/-- `sort_values(key_cols)` comparison between ledger rows. -/
def ledgerLe (a b : PollRow) : Prop :=
  keyLtB (rowKey a) (rowKey b) = true ∨ rowKey a = rowKey b

/-- Strict key order between ledger rows. -/
def ledgerLt (a b : PollRow) : Prop := keyLtB (rowKey a) (rowKey b) = true

instance : DecidableRel ledgerLe := fun a b =>
  inferInstanceAs (Decidable (_ ∨ _))

instance : DecidableRel ledgerLt := fun a b =>
  inferInstanceAs (Decidable (_ = _))

instance : IsTotal PollRow ledgerLe :=
  ⟨fun a b => by
    cases h1 : keyLtB (rowKey a) (rowKey b)
    · cases h2 : keyLtB (rowKey b) (rowKey a)
      · exact Or.inl (Or.inr (keyLtB_eq_of_not h1 h2))
      · exact Or.inr (Or.inl h2)
    · exact Or.inl (Or.inl h1)⟩

instance : IsTrans PollRow ledgerLe :=
  ⟨fun a b c hab hbc => by
    rcases hab with h1 | h1
    · rcases hbc with h2 | h2
      · exact Or.inl (keyLtB_trans h1 h2)
      · exact Or.inl (h2 ▸ h1)
    · rcases hbc with h2 | h2
      · exact Or.inl (h1 ▸ h2)
      · exact Or.inr (h1.trans h2)⟩

instance : IsAntisymm PollRow ledgerLt :=
  ⟨fun a b hab hba => by
    have h : keyLtB (rowKey a) (rowKey b) = false := keyLtB_asymm hba
    have h2 : keyLtB (rowKey a) (rowKey b) = true := hab
    rw [h2] at h
    exact absurd h.symm Bool.false_ne_true⟩

/-- `drop_duplicates(subset=key_cols, keep="last")`: keep a row exactly
when no later row carries the same key; kept rows stay in order. -/
def dedupKeepLast : List PollRow → List PollRow
  | [] => []
  | r :: rs =>
    if ∃ y ∈ rs, rowKey y = rowKey r then dedupKeepLast rs
    else r :: dedupKeepLast rs

/-- The merge step of `append_raw_poll_rows` (lines 131-136): concatenate
the existing ledger with the new rows, drop duplicate keys keeping the
last written row, and sort by the key columns. -/
def merge_rows (cur rows : List PollRow) : List PollRow :=
  List.insertionSort ledgerLe (dedupKeepLast (cur ++ rows))

/-- Embeds `append_raw_poll_rows` (polling_pipeline.py lines 112-141) as a
transformation of the ledger file content.  `none` stands for a ledger
file that does not exist yet.  Empty row sets return without touching the
file; a fresh file receives the new rows sorted by key with no
deduplication; an existing file is merged with last-write-wins
deduplication on the key. -/
def append_raw_poll_rows (ledger : Option (List PollRow))
    (rows : List PollRow) : Option (List PollRow) :=
  if rows.isEmpty then ledger
  else
    match ledger with
    | some cur => some (merge_rows cur rows)
    | none => some (List.insertionSort ledgerLe rows)

/-! ### Properties of the dedup/merge step -/

theorem dedupKeepLast_subset {l : List PollRow} {x : PollRow}
    (hx : x ∈ dedupKeepLast l) : x ∈ l := by
  induction l with
  | nil => simpa [dedupKeepLast] using hx
  | cons r rs ih =>
    by_cases h : ∃ y ∈ rs, rowKey y = rowKey r
    · rw [dedupKeepLast, if_pos h] at hx
      exact List.mem_cons_of_mem r (ih hx)
    · rw [dedupKeepLast, if_neg h] at hx
      rcases List.mem_cons.mp hx with h1 | h1
      · exact h1 ▸ List.mem_cons_self r rs
      · exact List.mem_cons_of_mem r (ih h1)

theorem dedupKeepLast_keys_nodup (l : List PollRow) :
    ((dedupKeepLast l).map rowKey).Nodup := by
  induction l with
  | nil => simp [dedupKeepLast]
  | cons r rs ih =>
    by_cases h : ∃ y ∈ rs, rowKey y = rowKey r
    · rw [dedupKeepLast, if_pos h]
      exact ih
    · rw [dedupKeepLast, if_neg h]
      rw [List.map_cons, List.nodup_cons]
      refine ⟨fun hmem => ?_, ih⟩
      rcases List.mem_map.mp hmem with ⟨y, hy, hkey⟩
      exact h ⟨y, dedupKeepLast_subset hy, hkey⟩

theorem exists_key_dedupKeepLast (l : List PollRow) :
    ∀ x ∈ l, ∃ y ∈ dedupKeepLast l, rowKey y = rowKey x := by
  induction l with
  | nil => intro x hx; cases hx
  | cons r rs ih =>
    intro x hx
    by_cases h : ∃ y ∈ rs, rowKey y = rowKey r
    · rw [dedupKeepLast, if_pos h]
      rcases List.mem_cons.mp hx with h1 | h1
      · rcases h with ⟨y, hy, hkey⟩
        rcases ih y hy with ⟨z, hz, hzkey⟩
        exact ⟨z, hz, by rw [hzkey, hkey, h1]⟩
      · exact ih x h1
    · rw [dedupKeepLast, if_neg h]
      rcases List.mem_cons.mp hx with h1 | h1
      · exact ⟨r, List.mem_cons_self _ _, by rw [h1]⟩
      · rcases ih x h1 with ⟨z, hz, hzkey⟩
        exact ⟨z, List.mem_cons_of_mem r hz, hzkey⟩

theorem mem_dedupKeepLast_append_last (l : List PollRow) (r : PollRow) :
    r ∈ dedupKeepLast (l ++ [r]) := by
  induction l with
  | nil =>
    rw [List.nil_append]
    rw [dedupKeepLast, if_neg (by simp [dedupKeepLast])]
    exact List.mem_cons_self r []
  | cons a l ih =>
    rw [List.cons_append]
    by_cases h : ∃ y ∈ l ++ [r], rowKey y = rowKey a
    · rw [dedupKeepLast, if_pos h]
      exact ih
    · rw [dedupKeepLast, if_neg h]
      exact List.mem_cons_of_mem a ih

/-- Strict sortedness by ledger key implies distinct keys. -/
theorem keys_nodup_of_sorted {l : List PollRow}
    (h : l.Pairwise ledgerLt) : (l.map rowKey).Nodup := by
  rw [List.Nodup, List.pairwise_map]
  refine h.imp fun hab => ?_
  intro hkey
  rw [ledgerLt, hkey, keyLtB_irrefl] at hab
  exact Bool.false_ne_true hab

/-- Rows of a list with pairwise-distinct keys are determined by their
key. -/
theorem eq_of_same_key {l : List PollRow} (hnd : (l.map rowKey).Nodup)
    {a b : PollRow} (ha : a ∈ l) (hb : b ∈ l)
    (hkey : rowKey a = rowKey b) : a = b :=
  List.inj_on_of_nodup_map hnd ha hb hkey

/-- A list with pairwise-distinct keys has pairwise-distinct rows. -/
theorem nodup_of_keys_nodup {l : List PollRow}
    (hnd : (l.map rowKey).Nodup) : l.Nodup :=
  hnd.of_map rowKey

/-- A duplicate-free list all of whose members equal `r`, and which does
contain `r`, is exactly `[r]`. -/
theorem eq_singleton_of_unique {m : List PollRow} {r : PollRow}
    (hnd : m.Nodup) (hr : r ∈ m) (hall : ∀ x ∈ m, x = r) : m = [r] := by
  cases m with
  | nil => cases hr
  | cons a t =>
    have ha : a = r := hall a (List.mem_cons_self _ _)
    subst ha
    cases t with
    | nil => rfl
    | cons b t2 =>
      have hb : b = a := hall b (List.mem_cons_of_mem a (List.mem_cons_self _ _))
      rw [List.nodup_cons] at hnd
      exact absurd (hb ▸ List.mem_cons_self b t2) hnd.1

/-- The rows kept by the merge are exactly the rows of the previous ledger
when every appended row is already present there. -/
theorem mem_merge_iff_of_subset {cur rows : List PollRow}
    (hcurnd : (cur.map rowKey).Nodup) (hsub : ∀ r ∈ rows, r ∈ cur) :
    ∀ x, x ∈ dedupKeepLast (cur ++ rows) ↔ x ∈ cur := by
  intro x
  constructor
  · intro hx
    rcases List.mem_append.mp (dedupKeepLast_subset hx) with h | h
    · exact h
    · exact hsub x h
  · intro hx
    rcases exists_key_dedupKeepLast (cur ++ rows) x
        (List.mem_append_left rows hx) with ⟨y, hy, hykey⟩
    have hycur : y ∈ cur := by
      rcases List.mem_append.mp (dedupKeepLast_subset hy) with h | h
      · exact h
      · exact hsub y h
    have : y = x := eq_of_same_key hcurnd hycur hx hykey
    exact this ▸ hy

end RER

/-- C1: appending a row set that the ledger already contains is a no-op on
the persisted content: for every well-formed ledger (strictly sorted by
the `(poll_at_utc, stop_id, line_code)` key, as `append_raw_poll_rows`
always writes it) and every row set all of whose rows already occur in the
ledger, the merge leaves the ledger exactly unchanged — same row count,
same values. -/
theorem append_raw_idempotent (cur rows : List RER.PollRow)
    (hsorted : cur.Pairwise RER.ledgerLt)
    (hsub : ∀ r ∈ rows, r ∈ cur) :
    RER.append_raw_poll_rows (some cur) rows = some cur := by
  by_cases hrows : rows.isEmpty
  · rw [RER.append_raw_poll_rows, if_pos hrows]
  · rw [RER.append_raw_poll_rows, if_neg hrows]
    refine congrArg some ?_
    have hcurnd : (cur.map RER.rowKey).Nodup := RER.keys_nodup_of_sorted hsorted
    have hmem := RER.mem_merge_iff_of_subset hcurnd hsub
    have hDnd : (RER.dedupKeepLast (cur ++ rows)).Nodup :=
      RER.nodup_of_keys_nodup (RER.dedupKeepLast_keys_nodup _)
    have hcurnodup : cur.Nodup := RER.nodup_of_keys_nodup hcurnd
    have hperm : List.Perm (RER.dedupKeepLast (cur ++ rows)) cur :=
      List.perm_of_nodup_nodup_toFinset_eq hDnd hcurnodup
        (Finset.ext fun x => by
          simp only [List.mem_toFinset]
          exact hmem x)
    have hsortPerm : List.Perm (RER.merge_rows cur rows) cur :=
      (List.perm_insertionSort RER.ledgerLe _).trans hperm
    have hsortedLe : (RER.merge_rows cur rows).Pairwise RER.ledgerLe :=
      List.sorted_insertionSort RER.ledgerLe _
    have hkeysND : ((RER.merge_rows cur rows).map RER.rowKey).Nodup := by
      have hmapPerm :
          List.Perm ((RER.merge_rows cur rows).map RER.rowKey)
            ((RER.dedupKeepLast (cur ++ rows)).map RER.rowKey) :=
        (List.perm_insertionSort RER.ledgerLe _).map RER.rowKey
      exact hmapPerm.nodup_iff.mpr (RER.dedupKeepLast_keys_nodup _)
    have hne : (RER.merge_rows cur rows).Pairwise
        (fun a b => RER.rowKey a ≠ RER.rowKey b) := by
      rw [List.Nodup, List.pairwise_map] at hkeysND
      exact hkeysND
    have hstrict : (RER.merge_rows cur rows).Pairwise RER.ledgerLt := by
      refine (hsortedLe.and hne).imp fun hab => ?_
      rcases hab with ⟨h1 | h1, h2⟩
      · exact h1
      · exact absurd h1 h2
    exact List.eq_of_perm_of_sorted hsortPerm hstrict hsorted

namespace RER

/-- Concrete two-row ledger used by the C1 witness. -/
def exLedger : List PollRow :=
  [{ poll_at_utc := "2025-11-15T08:00:00.000000+00:00"
     poll_at_local := "2025-11-15T09:00:00+01:00"
     stop_id := "STIF:StopPoint:Q:41087:"
     line_code := "RER A"
     mean_delay_s := some 30, mean_lateness_s := some 30
     n := 4, n_neg := 0, n_pos := 3 },
   { poll_at_utc := "2025-11-15T08:00:00.000000+00:00"
     poll_at_local := "2025-11-15T09:00:00+01:00"
     stop_id := "STIF:StopPoint:Q:41087:"
     line_code := "RER B"
     mean_delay_s := some 0, mean_lateness_s := some 0
     n := 2, n_neg := 1, n_pos := 0 }]

end RER

/-- Witness for C1: re-appending the full content of a concrete two-row
ledger to itself leaves the ledger unchanged. -/
theorem append_raw_idempotent_witness :
    RER.append_raw_poll_rows (some RER.exLedger) RER.exLedger =
      some RER.exLedger :=
  append_raw_idempotent RER.exLedger RER.exLedger (by decide) (by decide)

/-- C2: appending a row whose key `(poll_at_utc, stop_id, line_code)`
already occurs in the ledger but whose measures differ keeps exactly one
row for that key, and that row carries the measures of the later-written
row (last-write-wins). -/
theorem append_last_write_wins (cur : List RER.PollRow)
    (rOld rNew : RER.PollRow) (hold : rOld ∈ cur)
    (hkey : RER.rowKey rNew = RER.rowKey rOld)
    (hdiff : rNew.mean_delay_s ≠ rOld.mean_delay_s) :
    RER.append_raw_poll_rows (some cur) [rNew] =
      some (RER.merge_rows cur [rNew]) ∧
    (RER.merge_rows cur [rNew]).filter
      (fun x => decide (RER.rowKey x = RER.rowKey rNew)) = [rNew] := by
  constructor
  · rw [RER.append_raw_poll_rows, if_neg (by simp)]
  · have hnew : rNew ∈ RER.dedupKeepLast (cur ++ [rNew]) :=
      RER.mem_dedupKeepLast_append_last cur rNew
    have hDk : ((RER.dedupKeepLast (cur ++ [rNew])).map RER.rowKey).Nodup :=
      RER.dedupKeepLast_keys_nodup _
    have hDnd : (RER.dedupKeepLast (cur ++ [rNew])).Nodup :=
      RER.nodup_of_keys_nodup hDk
    have hfilterD :
        (RER.dedupKeepLast (cur ++ [rNew])).filter
          (fun x => decide (RER.rowKey x = RER.rowKey rNew)) = [rNew] := by
      refine RER.eq_singleton_of_unique (hDnd.filter _) ?_ ?_
      · exact List.mem_filter.mpr ⟨hnew, by simp⟩
      · intro x hx
        rcases List.mem_filter.mp hx with ⟨hxD, hxkey⟩
        have hxkey2 : RER.rowKey x = RER.rowKey rNew := by
          simpa using hxkey
        exact RER.eq_of_same_key hDk hxD hnew hxkey2
    have hpermF :
        List.Perm
          ((RER.merge_rows cur [rNew]).filter
            (fun x => decide (RER.rowKey x = RER.rowKey rNew)))
          ((RER.dedupKeepLast (cur ++ [rNew])).filter
            (fun x => decide (RER.rowKey x = RER.rowKey rNew))) :=
      (List.perm_insertionSort RER.ledgerLe _).filter _
    rw [hfilterD] at hpermF
    exact List.perm_singleton.mp hpermF

namespace RER

/-- Re-polled row used by the C2 witness: same key as the second row of
`exLedger`, different measures. -/
def exNewRow : PollRow :=
  { poll_at_utc := "2025-11-15T08:00:00.000000+00:00"
    poll_at_local := "2025-11-15T09:00:00+01:00"
    stop_id := "STIF:StopPoint:Q:41087:"
    line_code := "RER B"
    mean_delay_s := some 45, mean_lateness_s := some 45
    n := 3, n_neg := 0, n_pos := 2 }

end RER

/-- Witness for C2: overwriting the `RER B` row of the concrete ledger with
a row of different measures leaves exactly one row for that key, carrying
the new measures. -/
theorem append_last_write_wins_witness :
    (RER.merge_rows RER.exLedger [RER.exNewRow]).filter
      (fun x => decide (RER.rowKey x = RER.rowKey RER.exNewRow)) =
      [RER.exNewRow] :=
  (append_last_write_wins RER.exLedger (RER.exLedger.get ⟨1, by decide⟩)
    RER.exNewRow (by decide) (by decide) (by decide)).2

namespace RER

/-! ### `polling_pipeline.aggregate_poll`

One snapshot is reduced to one row per `(stop_id, line_code)` group.
`groupby(sort=True)` emits the groups in ascending key order; within a
group the pandas aggregations `mean` / `count` skip `NaN` cells, and the
`(s < 0)` / `(s > 0)` sums treat `NaN` as false.  The timezone conversion
and string rendering of the local poll timestamp is modelled by
`localRender`, an opaque injective renaming of the UTC string; no claim
inspects its value. -/

/-- Abstract `tz_convert("Europe/Paris")` plus ISO rendering of the poll
timestamp. -/
def localRender (s : String) : String := String.append "local:" s

/-- The groupby key of `aggregate_poll`: the pair of string columns
`(stop_id, line_code)`. -/
def eventGroupKey (e : Event) : List Char × List Char :=
  (e.stop_id.data, e.line_code.data)

/-- `sort=True` comparison between groupby keys. -/
def aggLe (a b : List Char × List Char) : Prop :=
  lexB charsLt charsLt a b = true ∨ a = b

instance : DecidableRel aggLe := fun a b =>
  inferInstanceAs (Decidable (_ ∨ _))

instance : IsTotal (List Char × List Char) aggLe :=
  ⟨fun a b => by
    cases h1 : lexB charsLt charsLt a b
    · cases h2 : lexB charsLt charsLt b a
      · exact Or.inl (Or.inr
          (lexB_eq_of_not _ _ charsLt_eq_of_not charsLt_eq_of_not a b h1 h2))
      · exact Or.inr (Or.inl h2)
    · exact Or.inl (Or.inl h1)⟩

instance : IsTrans (List Char × List Char) aggLe :=
  ⟨fun a b c hab hbc => by
    rcases hab with h1 | h1
    · rcases hbc with h2 | h2
      · exact Or.inl (lexB_trans _ _ charsLt_trans charsLt_trans a b c h1 h2)
      · exact Or.inl (h2 ▸ h1)
    · rcases hbc with h2 | h2
      · exact Or.inl (h1 ▸ h2)
      · exact Or.inr (h1.trans h2)⟩

/-- The distinct `(stop_id, line_code)` keys of the snapshot events, in
ascending order (pandas `groupby(["stop_id", "line_code"])` with the
default `sort=True`). -/
def aggKeys (events : List Event) : List (List Char × List Char) :=
  List.insertionSort aggLe (events.map eventGroupKey).dedup

/-- The events of one groupby group. -/
def aggGroup (events : List Event) (k : List Char × List Char) :
    List Event :=
  events.filter (fun e => decide (eventGroupKey e = k))

/-- The aggregation of one group (polling_pipeline.py lines 82-100): mean
delay, mean positive-lateness, count of non-null delays, counts of
negative and positive delays, rounded to three decimals. -/
def mkPollRow (poll_at_utc poll_at_local : String)
    (k : List Char × List Char) (grp : List Event) : PollRow :=
  let ds := grp.filterMap (fun e => e.delay_seconds)
  { poll_at_utc := poll_at_utc
    poll_at_local := poll_at_local
    stop_id := String.mk k.1
    line_code := String.mk k.2
    mean_delay_s :=
      if ds.length = 0 then none
      else some (round3 (ds.sum / (ds.length : ℚ)))
    mean_lateness_s :=
      if ds.length = 0 then none
      else some (round3 ((ds.map (fun x => max x 0)).sum / (ds.length : ℚ)))
    n := ds.length
    n_neg := (ds.filter (fun x => decide (x < 0))).length
    n_pos := (ds.filter (fun x => decide (0 < x))).length }

/-- Embeds `aggregate_poll` (polling_pipeline.py lines 64-109).  An empty
event set returns the empty row set (the typed-but-rowless DataFrame of
line 69); otherwise the poll timestamp is the snapshot timestamp shared by
the events (`dropna().iloc[0]`; the string column never has a `NaN`, so
this is the first row), with the wall-clock fallback `now_utc_iso` used
only when there is no event to read it from. -/
def aggregate_poll (events : List Event) (now_utc_iso : String) :
    List PollRow :=
  if events.isEmpty then []
  else
    let poll_at_utc := ((events.head?).map Event.snapshot_at_utc).getD
      now_utc_iso
    let poll_at_local := localRender poll_at_utc
    (aggKeys events).map (fun k =>
      mkPollRow poll_at_utc poll_at_local k (aggGroup events k))

end RER

/-- C7 counterexample: on an empty filtered-event set, `aggregate_poll`
returns the empty row set only — contrary to the claim, the returned
aggregation carries no `poll_at_utc` / `poll_at_local` value at all (the
row set being empty, the list of poll-time values in the output is empty),
rather than an empty row set together with well-defined poll times. -/
theorem aggregate_empty_counterexample :
    RER.aggregate_poll [] "2025-11-15T08:00:00.000000+00:00" = [] ∧
    (RER.aggregate_poll [] "2025-11-15T08:00:00.000000+00:00").map
      (fun r => (r.poll_at_utc, r.poll_at_local)) = [] := by
  constructor <;> rfl

/-- C7 as amended: on an empty filtered-event set the aggregator returns
an empty row set (with the ledger schema but no rows, hence no poll-time
values), and the downstream writer treats this empty aggregation as a
valid, unproductive poll: `append_raw_poll_rows` returns without writing,
leaving any ledger state unchanged. -/
theorem aggregate_empty_is_noop (now_utc_iso : String)
    (ledger : Option (List RER.PollRow)) :
    RER.aggregate_poll [] now_utc_iso = [] ∧
    RER.append_raw_poll_rows ledger (RER.aggregate_poll [] now_utc_iso) =
      ledger := by
  refine ⟨rfl, ?_⟩
  rw [RER.aggregate_poll]
  simp [RER.append_raw_poll_rows]

namespace RER

/-- One polling cycle writes the aggregation of its snapshot events into
the ledger file; `run_polls` is the ledger content after a sequence of
cycles against one service-day file, starting from no file.  Each cycle
carries its events and the wall-clock fallback timestamp. -/
def run_polls (polls : List (List Event × String)) : Option (List PollRow) :=
  polls.foldl
    (fun st p => append_raw_poll_rows st (aggregate_poll p.1 p.2)) none

theorem rowKey_mkPollRow (u l : String) (k : List Char × List Char)
    (grp : List Event) :
    rowKey (mkPollRow u l k grp) = (u.data, k.1, k.2) := rfl

/-- The rows produced by one poll aggregation have pairwise-distinct
ledger keys: the `(stop_id, line_code)` pairs are the distinct groupby
keys and all rows share the one poll timestamp. -/
theorem aggregate_keys_nodup (events : List Event) (now_utc_iso : String) :
    ((aggregate_poll events now_utc_iso).map rowKey).Nodup := by
  rw [aggregate_poll]
  by_cases h : events.isEmpty
  · rw [if_pos h]
    simp
  · rw [if_neg h]
    rw [List.map_map]
    have hkeys : (aggKeys events).Nodup :=
      (List.perm_insertionSort aggLe _).nodup_iff.mpr
        (List.nodup_dedup _)
    refine hkeys.map ?_
    intro k1 k2 hk
    simp only [Function.comp_apply, rowKey_mkPollRow, Prod.mk.injEq] at hk
    exact Prod.ext hk.2.1 hk.2.2

/-- Appending a batch with pairwise-distinct keys preserves the ledger
invariant of at most one row per key, whether the file is fresh (plain
sorted write, no dedup) or merged (dedup keeps distinct keys). -/
theorem append_preserves_keys_nodup {st : Option (List PollRow)}
    {rows : List PollRow} (hrows : (rows.map rowKey).Nodup)
    (hst : ∀ c, st = some c → (c.map rowKey).Nodup) :
    ∀ c2, append_raw_poll_rows st rows = some c2 →
      (c2.map rowKey).Nodup := by
  intro c2 hc2
  rw [append_raw_poll_rows.eq_def] at hc2
  by_cases hemp : rows.isEmpty
  · rw [if_pos hemp] at hc2
    exact hst c2 hc2
  · rw [if_neg hemp] at hc2
    match st, hc2 with
    | some cur, hc2 =>
      have heq : merge_rows cur rows = c2 := Option.some.inj hc2
      rw [← heq]
      exact ((List.perm_insertionSort ledgerLe _).map rowKey).nodup_iff.mpr
        (dedupKeepLast_keys_nodup _)
    | none, hc2 =>
      have heq : List.insertionSort ledgerLe rows = c2 := Option.some.inj hc2
      rw [← heq]
      exact ((List.perm_insertionSort ledgerLe _).map rowKey).nodup_iff.mpr
        hrows

theorem run_polls_aux (polls : List (List Event × String)) :
    ∀ st : Option (List PollRow),
      (∀ c, st = some c → (c.map rowKey).Nodup) →
      ∀ c2, polls.foldl
          (fun st2 p => append_raw_poll_rows st2 (aggregate_poll p.1 p.2))
          st = some c2 →
        (c2.map rowKey).Nodup := by
  induction polls with
  | nil =>
    intro st hst c2 hc2
    exact hst c2 hc2
  | cons p ps ih =>
    intro st hst c2 hc2
    rw [List.foldl_cons] at hc2
    refine ih (append_raw_poll_rows st (aggregate_poll p.1 p.2)) ?_ c2 hc2
    intro c hc
    exact append_preserves_keys_nodup (aggregate_keys_nodup p.1 p.2) hst c hc

end RER

/-- C9: every ledger content produced by any sequence of polling cycles —
including the very first write, which sorts but does not deduplicate —
has at most one row per `(poll_at_utc, stop_id, line_code)` key.  The
invariant holds because each cycle appends the output of
`aggregate_poll`, whose rows have distinct `(stop_id, line_code)` pairs
under one shared poll timestamp, and because merges into an existing file
deduplicate on the full key. -/
theorem ledger_keys_unique (polls : List (List RER.Event × String))
    (content : List RER.PollRow)
    (hrun : RER.run_polls polls = some content) :
    (content.map RER.rowKey).Nodup :=
  RER.run_polls_aux polls none (fun _ h => Option.noConfusion h) content hrun

namespace RER

/-- Two snapshot events at different stops, used by the C9 witness; their
timestamps are absent so that every aggregated measure is a `none` / zero
literal. -/
def exEvents : List Event :=
  [{ snapshot_at_utc := "2025-11-15T08:00:00Z"
     stop_id := "B", stop_name := "", line_code := "RER A"
     direction := "", destination := ""
     scheduled_time_utc := "", rt_time_utc := ""
     delay_seconds := none, lead_time_seconds := none
     vehicle_journey_id := "" },
   { snapshot_at_utc := "2025-11-15T08:00:00Z"
     stop_id := "A", stop_name := "", line_code := "RER A"
     direction := "", destination := ""
     scheduled_time_utc := "", rt_time_utc := ""
     delay_seconds := none, lead_time_seconds := none
     vehicle_journey_id := "" }]

/-- The ledger content after one poll of `exEvents` on a fresh file. -/
def exContent : List PollRow :=
  [{ poll_at_utc := "2025-11-15T08:00:00Z"
     poll_at_local := localRender "2025-11-15T08:00:00Z"
     stop_id := "A", line_code := "RER A"
     mean_delay_s := none, mean_lateness_s := none
     n := 0, n_neg := 0, n_pos := 0 },
   { poll_at_utc := "2025-11-15T08:00:00Z"
     poll_at_local := localRender "2025-11-15T08:00:00Z"
     stop_id := "B", line_code := "RER A"
     mean_delay_s := none, mean_lateness_s := none
     n := 0, n_neg := 0, n_pos := 0 }]

end RER

/-- Witness for C9: one concrete polling cycle on a fresh file yields a
ledger whose keys are pairwise distinct. -/
theorem ledger_keys_unique_witness :
    RER.run_polls [(RER.exEvents, "fallback")] = some RER.exContent ∧
    ((RER.exContent).map RER.rowKey).Nodup :=
  ⟨by decide, ledger_keys_unique [(RER.exEvents, "fallback")] RER.exContent
    (by decide)⟩

/-- C5: an event with a non-null delay and a non-null scheduled time (and
hence a non-null lead time) passes the delay/schedule/lead-time filter of
`build_rer_events` exactly when its lead time lies in the closed interval
`[0, horizon]` — both endpoints included. -/
theorem lead_filter_closed_interval (e : RER.Event) (horizon d l : ℚ)
    (hd : e.delay_seconds = some d) (hs : e.scheduled_time_utc ≠ "")
    (hl : e.lead_time_seconds = some l) :
    RER.delay_sched_lead_pass e horizon = true ↔ 0 ≤ l ∧ l ≤ horizon := by
  simp [RER.delay_sched_lead_pass, RER.notna_str, RER.lead_between, hd, hl]

namespace RER

/-- Event template for the C5 witness with a given lead time. -/
def exLeadEvent (l : ℚ) : Event :=
  { snapshot_at_utc := "2025-11-15T08:00:00Z"
    stop_id := "A", stop_name := "", line_code := "RER B"
    direction := "", destination := ""
    scheduled_time_utc := "2025-11-15T08:01:00Z", rt_time_utc := "2025-11-15T08:03:00Z"
    delay_seconds := some 120, lead_time_seconds := some l
    vehicle_journey_id := "" }

end RER

/-- Witness for C5 at the default 600 s horizon: lead time 0 and lead time
600 are kept, lead time -1 is dropped. -/
theorem lead_filter_closed_interval_witness :
    RER.delay_sched_lead_pass (RER.exLeadEvent 0) 600 = true ∧
    RER.delay_sched_lead_pass (RER.exLeadEvent 600) 600 = true ∧
    RER.delay_sched_lead_pass (RER.exLeadEvent (-1)) 600 = false := by
  refine ⟨?_, ?_, ?_⟩
  · exact (lead_filter_closed_interval (RER.exLeadEvent 0) 600 120 0 rfl
      (by decide) rfl).mpr (by norm_num)
  · exact (lead_filter_closed_interval (RER.exLeadEvent 600) 600 120 600 rfl
      (by decide) rfl).mpr (by norm_num)
  · have h := lead_filter_closed_interval (RER.exLeadEvent (-1)) 600 120 (-1)
      rfl (by decide) rfl
    cases hp : RER.delay_sched_lead_pass (RER.exLeadEvent (-1)) 600
    · rfl
    · exact absurd (h.mp hp).1 (by norm_num)

namespace RER

/-- Event with a lower-case RER line code that is otherwise valid, for the
C6 counterexample. -/
def evRerLower : Event :=
  { snapshot_at_utc := "2025-11-15T08:00:00Z"
    stop_id := "A", stop_name := "", line_code := "rer b"
    direction := "", destination := ""
    scheduled_time_utc := "2025-11-15T08:01:00Z", rt_time_utc := "2025-11-15T08:01:00Z"
    delay_seconds := some 0, lead_time_seconds := some 60
    vehicle_journey_id := "" }

/-- Event identical to `evRerLower` but with the canonical upper-case line
code. -/
def evRerUpper : Event :=
  { snapshot_at_utc := "2025-11-15T08:00:00Z"
    stop_id := "A", stop_name := "", line_code := "RER C"
    direction := "", destination := ""
    scheduled_time_utc := "2025-11-15T08:01:00Z", rt_time_utc := "2025-11-15T08:01:00Z"
    delay_seconds := some 0, lead_time_seconds := some 60
    vehicle_journey_id := "" }

/-- A stop call with both timestamps parsed, for the concrete payload. -/
def exCall : EstimatedCall :=
  { StopPointRef := some "A", MonitoringRef := none
    StopPointName := none
    aimed_dt := some 3, exp_dt := some 5 }

/-- A `rer b` journey with the single stop call `exCall`. -/
def exJourney : EstimatedVehicleJourney :=
  { PublishedLineName := some "rer b", LineRef := none
    DirectionName := none, DestinationName := none
    DestinationRef := none, VehicleJourneyRef := none
    DatedVehicleJourneyRef := none
    EstimatedCall := [exCall] }

/-- A payload holding one `rer b` journey with one fully-timed stop call,
used to show that the flattener accepts the lower-case line code. -/
def exSdLower : ServiceDelivery :=
  { ResponseTimestamp := some 0
    EstimatedTimetableDelivery :=
      [{ EstimatedJourneyVersionFrame :=
          [{ EstimatedVehicleJourney := [exJourney] }] }] }

end RER

/-- C6 counterexample: the claim says line matching accepts `RER A`-`RER E`
case-insensitively and that accepted events survive line filtering through
to aggregation.  The matcher `_is_rer_line` does accept `"rer b"`, and the
flattener emits an event for a `"rer b"` journey, but the subsequent
case-sensitive `str.startswith("RER ")` filter of `build_rer_events` drops
that event even though its delay and lead time are valid, so it never
reaches aggregation. -/
theorem line_matching_counterexample :
    RER.is_rer_line "rer b" = true ∧
    RER.is_rer_line RER.evRerLower.line_code = true ∧
    RER.delay_sched_lead_pass RER.evRerLower 600 = true ∧
    RER.build_rer_events [RER.evRerLower] 600 = [] ∧
    (RER.flatten_estimated_timetable RER.exSdLower 0).length = 1 := by
  refine ⟨by decide, by decide, by decide, by decide, by decide⟩

/-- C6 as amended: `_is_rer_line` accepts the forms `RER A`-`RER E`
case-insensitively with arbitrary surrounding whitespace (`"rer b"` and
`" RER C "` are accepted) and rejects other strings (`"RER F"` and
`"Transilien"` are rejected), and every event emitted by the flattener has
an accepted line code; but an accepted event survives the subsequent line
filter of `build_rer_events` (and reaches aggregation) if and only if its
line code starts with the case-sensitive prefix `"RER "`, so lower-case
accepted codes are dropped there. -/
theorem line_matching_amended :
    (RER.is_rer_line "rer b" = true ∧ RER.is_rer_line " RER C " = true ∧
     RER.is_rer_line "RER F" = false ∧
     RER.is_rer_line "Transilien" = false) ∧
    (∀ sd now e, e ∈ RER.flatten_estimated_timetable sd now →
      RER.is_rer_line e.line_code = true) ∧
    (∀ events (e : RER.Event) horizon, e ∈ events →
      RER.delay_sched_lead_pass e horizon = true →
      (e ∈ RER.build_rer_events events horizon ↔
        RER.startsWithChars e.line_code.data ("RER ").data = true)) := by
  refine ⟨by refine ⟨by decide, by decide, by decide, by decide⟩, ?_, ?_⟩
  · intro sd now e he
    simp only [RER.flatten_estimated_timetable, List.mem_flatMap,
      List.mem_filter, List.mem_map] at he
    rcases he with ⟨d, _, fr, _, j, ⟨_, hj⟩, c, _, hmk⟩
    rw [← hmk]
    exact hj
  · intro events e horizon he hpass
    rw [RER.build_rer_events, List.mem_filter]
    constructor
    · intro h
      have hb := h.2
      rw [RER.build_pass, Bool.and_eq_true] at hb
      exact hb.1
    · intro h
      exact ⟨he, by rw [RER.build_pass, h, hpass]; rfl⟩

/-- Witness for C6 as amended: the four concrete matcher verdicts; the
event of the concrete lower-case payload has an accepted line code; and
the concrete upper-case event survives `build_rer_events` while the
lower-case one does not. -/
theorem line_matching_amended_witness :
    RER.is_rer_line " RER C " = true ∧
    RER.is_rer_line (RER.mkEvent 0 RER.exJourney RER.exCall).line_code
      = true ∧
    RER.evRerUpper ∈ RER.build_rer_events [RER.evRerUpper] 600 ∧
    (RER.evRerLower ∈ RER.build_rer_events [RER.evRerLower] 600 → False) := by
  refine ⟨line_matching_amended.1.2.1, ?_, ?_, ?_⟩
  · exact line_matching_amended.2.1 RER.exSdLower 0 _ (by decide)
  · exact (line_matching_amended.2.2 [RER.evRerUpper] RER.evRerUpper 600
      (by decide) (by decide)).mpr (by decide)
  · intro hmem
    have h := (line_matching_amended.2.2 [RER.evRerLower] RER.evRerLower 600
      (by decide) (by decide)).mp hmem
    exact absurd h (by decide)

/-- C10: a flattened event has a non-null delay exactly when both the
aimed and the expected timestamp parsed, and a non-null lead time exactly
when the aimed timestamp parsed; consequently every event of a flattened
payload that carries a non-null delay also carries a non-empty
`scheduled_time_utc` and `rt_time_utc`, and every event with a non-null
lead time carries a non-empty `scheduled_time_utc` — which is what makes
the delay-based filter of `build_rer_events` sufficient to guarantee a
scheduled time. -/
theorem flatten_delay_implies_times :
    (∀ snap j c,
      ((RER.mkEvent snap j c).delay_seconds.isSome = true ↔
        c.aimed_dt.isSome = true ∧ c.exp_dt.isSome = true) ∧
      ((RER.mkEvent snap j c).lead_time_seconds.isSome = true ↔
        c.aimed_dt.isSome = true) ∧
      ((RER.mkEvent snap j c).scheduled_time_utc ≠ "" ↔
        c.aimed_dt.isSome = true) ∧
      ((RER.mkEvent snap j c).rt_time_utc ≠ "" ↔
        c.exp_dt.isSome = true)) ∧
    (∀ sd now e, e ∈ RER.flatten_estimated_timetable sd now →
      (e.delay_seconds.isSome = true →
        e.scheduled_time_utc ≠ "" ∧ e.rt_time_utc ≠ "") ∧
      (e.lead_time_seconds.isSome = true → e.scheduled_time_utc ≠ "")) := by
  have hmk : ∀ (snap : ℤ) j c,
      ((RER.mkEvent snap j c).delay_seconds.isSome = true ↔
        c.aimed_dt.isSome = true ∧ c.exp_dt.isSome = true) ∧
      ((RER.mkEvent snap j c).lead_time_seconds.isSome = true ↔
        c.aimed_dt.isSome = true) ∧
      ((RER.mkEvent snap j c).scheduled_time_utc ≠ "" ↔
        c.aimed_dt.isSome = true) ∧
      ((RER.mkEvent snap j c).rt_time_utc ≠ "" ↔
        c.exp_dt.isSome = true) := by
    intro snap j c
    cases ha : c.aimed_dt with
    | none =>
      cases hb : c.exp_dt with
      | none => simp [RER.mkEvent, ha, hb]
      | some e2 => simp [RER.mkEvent, ha, hb, RER.isoZ_ne_empty]
    | some a =>
      cases hb : c.exp_dt with
      | none => simp [RER.mkEvent, ha, hb, RER.isoZ_ne_empty]
      | some e2 => simp [RER.mkEvent, ha, hb, RER.isoZ_ne_empty]
  refine ⟨hmk, ?_⟩
  intro sd now e he
  simp only [RER.flatten_estimated_timetable, List.mem_flatMap,
    List.mem_filter, List.mem_map] at he
  rcases he with ⟨d, _, fr, _, j, ⟨_, _⟩, c, _, hmkEq⟩
  rcases hmk (sd.ResponseTimestamp.getD now) j c with ⟨h1, h2, h3, h4⟩
  rw [← hmkEq]
  constructor
  · intro hdel
    have := h1.mp hdel
    exact ⟨h3.mpr this.1, h4.mpr this.2⟩
  · intro hlead
    exact h3.mpr (h2.mp hlead)

/-- Witness for C10: for the concrete lower-case payload (one stop call
with both timestamps parsed), the emitted event has a non-null delay and
indeed carries non-empty scheduled and observed timestamps. -/
theorem flatten_delay_implies_times_witness :
    (RER.mkEvent 0 RER.exJourney RER.exCall).scheduled_time_utc ≠ "" ∧
    (RER.mkEvent 0 RER.exJourney RER.exCall).rt_time_utc ≠ "" := by
  exact (flatten_delay_implies_times.2 RER.exSdLower 0 _ (by decide)).1
    (by decide)

namespace RER

/-! ### `prim_client.PrimClient`

The HTTP client is modelled by its observable retry behaviour: attempt
`k` of the loop `for k in range(min(max_retries, len(backoff)))` sleeps
`backoff[k]` seconds (`time.sleep` is skipped when the delay is zero,
which equals waiting zero seconds) and then performs one GET plus JSON
decode, whose outcome is supplied by the environment as `outcomes k`.
The `RuntimeError` raised after the retries exhaust (the realization of
the `FetchError` of the design) carries the last underlying error. -/

/-- Defaults of `PrimClient.__init__` (prim_client.py lines 6-17);
`backoff_s=None` falls back to `[0.0, 1.0, 2.0, 4.0]`. -/
structure PrimClient where
  timeout_s : ℚ := 30
  max_retries : ℕ := 3
  backoff_s : List ℚ := [0, 1, 2, 4]

/-- The number of attempts the loop makes:
`range(min(self._max_retries, len(self._backoff)))`. -/
def attemptCount (c : PrimClient) : ℕ :=
  min c.max_retries c.backoff_s.length

/-- The retry loop of `get_json` over the remaining attempt indices,
carrying the last error seen and the delays applied so far. -/
def getJsonGo {α : Type} (c : PrimClient) (outcomes : ℕ → Except String α) :
    List ℕ → Option String → List ℚ → Except (Option String) α × List ℚ
  | [], lastErr, sleeps => (Except.error lastErr, sleeps)
  | k :: ks, lastErr, sleeps =>
    match outcomes k with
    | Except.ok p => (Except.ok p, sleeps ++ [c.backoff_s.getD k 0])
    | Except.error e =>
      getJsonGo c outcomes ks (some e) (sleeps ++ [c.backoff_s.getD k 0])

/-- Embeds `PrimClient.get_json` (prim_client.py lines 19-36): the result
(payload of the first successful attempt, or the error carrying the last
underlying error once the attempts exhaust) together with the list of
per-attempt backoff delays applied. -/
def get_json {α : Type} (c : PrimClient) (outcomes : ℕ → Except String α) :
    Except (Option String) α × List ℚ :=
  getJsonGo c outcomes (List.range (attemptCount c)) none []

theorem getJsonGo_all_fail {α : Type} (c : PrimClient)
    (outcomes : ℕ → Except String α) (errs : ℕ → String) :
    ∀ (ks : List ℕ) (lastErr : Option String) (sleeps : List ℚ),
      (∀ k ∈ ks, outcomes k = Except.error (errs k)) →
      getJsonGo c outcomes ks lastErr sleeps =
        (Except.error (ks.foldl (fun _ k => some (errs k)) lastErr),
         sleeps ++ ks.map (fun k => c.backoff_s.getD k 0)) := by
  intro ks
  induction ks with
  | nil =>
    intro lastErr sleeps _
    simp [getJsonGo]
  | cons k ks ih =>
    intro lastErr sleeps hall
    rw [getJsonGo, hall k (List.mem_cons_self _ _)]
    dsimp only
    rw [ih (some (errs k)) (sleeps ++ [c.backoff_s.getD k 0])
      (fun k2 hk2 => hall k2 (List.mem_cons_of_mem k hk2))]
    simp

theorem range_map_getD_eq_take (l : List ℚ) :
    ∀ n, n ≤ l.length →
      (List.range n).map (fun k => l.getD k 0) = l.take n := by
  intro n
  induction n with
  | zero => intro _; simp
  | succ m ih =>
    intro hm
    rw [List.range_succ, List.map_append, ih (by omega), List.take_succ]
    simp only [List.map_cons, List.map_nil]
    have hlt : m < l.length := by omega
    rw [List.getD_eq_getElem l 0 hlt]
    simp [List.getElem?_eq_getElem hlt]

theorem range_foldl_last (f : ℕ → String) :
    ∀ n, 0 < n →
      (List.range n).foldl (fun _ k => some (f k)) none = some (f (n - 1)) := by
  intro n hn
  match n, hn with
  | m + 1, _ =>
    rw [List.range_succ, List.foldl_append]
    simp

end RER

/-- C8: when every attempt fails (transport error or non-2xx response,
both surfacing as an exception from the request block), `get_json` makes
exactly `min(max_retries, len(backoff))` attempts whose delays follow the
configured backoff schedule in order (its initial segment), never returns
a payload, and finally fails carrying the last underlying error.  With the
source defaults this is 3 attempts with delays 0 s, 1 s, 2 s taken from
the schedule `[0, 1, 2, 4]`. -/
theorem get_json_all_fail {α : Type} (c : RER.PrimClient)
    (outcomes : ℕ → Except String α) (errs : ℕ → String)
    (hfail : ∀ k, k < RER.attemptCount c →
      outcomes k = Except.error (errs k))
    (hpos : 0 < RER.attemptCount c) :
    RER.get_json c outcomes =
      (Except.error (some (errs (RER.attemptCount c - 1))),
       c.backoff_s.take (RER.attemptCount c)) := by
  rw [RER.get_json]
  rw [RER.getJsonGo_all_fail c outcomes errs (List.range (RER.attemptCount c))
    none [] (fun k hk => hfail k (List.mem_range.mp hk))]
  rw [RER.range_foldl_last errs (RER.attemptCount c) hpos]
  rw [RER.range_map_getD_eq_take c.backoff_s (RER.attemptCount c)
    (Nat.min_le_right _ _)]
  simp

/-- Witness for C8: the default client (3 retries, backoff `[0, 1, 2, 4]`)
with every attempt failing performs 3 attempts with delays 0 s, 1 s, 2 s
and fails carrying the last error `"eee"` (attempt `k` fails with a string
of `k + 1` letters `e`); no payload is returned. -/
theorem get_json_all_fail_witness :
    RER.get_json {} (fun k =>
        (Except.error (String.mk (List.replicate (k + 1) 'e')) :
          Except String ℕ)) =
      (Except.error (some "eee"), [0, 1, 2]) := by
  have h := get_json_all_fail {}
    (fun k => (Except.error (String.mk (List.replicate (k + 1) 'e')) :
      Except String ℕ))
    (fun k => String.mk (List.replicate (k + 1) 'e'))
    (fun _ _ => rfl) (by decide)
  rw [h]
  rfl

namespace RER

/-! ### `polling_pipeline.rebuild_daily_from_raw`

The rebinner reads the raw ledger CSV back and parses the timestamp and
numeric columns (`pd.to_datetime` / `pd.to_numeric` with
`errors="coerce"`); a `RawRow` is one parsed row, timestamps in seconds.
Rows are grouped by the local poll time floored to the bucket width
together with `(stop_id, line_code)`; `dt.floor(freq)` for a positive
`bin_sec` is flooring division.  The two string renderings
`poll_bin_local` / `poll_bin_start_local_iso` of the bucket start both
determine and are determined by the bucket start instant, so the group key
is modelled by the instant itself.  Within a group, `w_delay = mean * n`
is `NaN` on `NaN` means and the groupby `sum` skips `NaN`; the final
division is `NaN` (replaced from division by zero) exactly when the
summed count is zero. -/

structure RawRow where
  poll_at_utc : ℤ
  poll_at_local : ℤ
  stop_id : String
  line_code : String
  mean_delay_s : Option ℚ
  mean_lateness_s : Option ℚ
  n : ℕ
  n_neg : ℕ
  n_pos : ℕ
deriving DecidableEq, Repr

structure DailyRow where
  poll_bin_start_local : ℤ
  stop_id : String
  line_code : String
  mean_delay_s : Option ℚ
  mean_lateness_s : Option ℚ
  n : ℕ
  n_neg : ℕ
  n_pos : ℕ
  last_poll_at_utc : ℤ
  last_poll_at_local : ℤ
deriving DecidableEq, Repr

/-- `poll_at_local` floored to the bucket width. -/
def bucketStart (t : ℤ) (bin_sec : ℤ) : ℤ := bin_sec * (t / bin_sec)

/-- The rebinner group key: bucket start, stop, line. -/
def binKey (bin_sec : ℤ) (r : RawRow) : ℤ × List Char × List Char :=
  (bucketStart r.poll_at_local bin_sec, r.stop_id.data, r.line_code.data)

/-- Strict lexicographic order on rebinner group keys. -/
def binLtB (a b : ℤ × List Char × List Char) : Bool :=
  lexB intLtB (lexB charsLt charsLt) a b

/-- Sort order of the daily output (groupby sort plus the final
`sort_values`). -/
def binLe (a b : ℤ × List Char × List Char) : Prop :=
  binLtB a b = true ∨ a = b

instance : DecidableRel binLe := fun a b =>
  inferInstanceAs (Decidable (_ ∨ _))

instance : IsTotal (ℤ × List Char × List Char) binLe :=
  ⟨fun a b => by
    cases h1 : binLtB a b
    · cases h2 : binLtB b a
      · exact Or.inl (Or.inr (lexB_eq_of_not _ _ intLtB_eq_of_not
          (lexB_eq_of_not _ _ charsLt_eq_of_not charsLt_eq_of_not) a b h1 h2))
      · exact Or.inr (Or.inl h2)
    · exact Or.inl (Or.inl h1)⟩

instance : IsTrans (ℤ × List Char × List Char) binLe :=
  ⟨fun a b c hab hbc => by
    rcases hab with h1 | h1
    · rcases hbc with h2 | h2
      · exact Or.inl (lexB_trans _ _ intLtB_trans
          (lexB_trans _ _ charsLt_trans charsLt_trans) a b c h1 h2)
      · exact Or.inl (h2 ▸ h1)
    · rcases hbc with h2 | h2
      · exact Or.inl (h1 ▸ h2)
      · exact Or.inr (h1.trans h2)⟩

/-- The distinct group keys of the raw rows, in output order. -/
def binKeys (rows : List RawRow) (bin_sec : ℤ) :
    List (ℤ × List Char × List Char) :=
  List.insertionSort binLe ((rows.map (binKey bin_sec)).dedup)

/-- The raw rows of one bucket group. -/
def binGroup (rows : List RawRow) (bin_sec : ℤ)
    (k : ℤ × List Char × List Char) : List RawRow :=
  rows.filter (fun r => decide (binKey bin_sec r = k))

/-- One output row of the daily table (polling_pipeline.py lines 174-194):
count-weighted mean delay and lateness, summed counts, latest contributing
poll timestamps; a zero total count yields a null mean. -/
def mkDailyRow (bin_sec : ℤ) (rows : List RawRow)
    (k : ℤ × List Char × List Char) : DailyRow :=
  let grp := binGroup rows bin_sec k
  let sumN := (grp.map RawRow.n).sum
  let sumW :=
    (grp.filterMap (fun r => r.mean_delay_s.map (fun m => m * (r.n : ℚ)))).sum
  let sumWL :=
    (grp.filterMap
      (fun r => r.mean_lateness_s.map (fun m => m * (r.n : ℚ)))).sum
  { poll_bin_start_local := k.1
    stop_id := String.mk k.2.1
    line_code := String.mk k.2.2
    mean_delay_s :=
      if sumN = 0 then none else some (round3 (sumW / (sumN : ℚ)))
    mean_lateness_s :=
      if sumN = 0 then none else some (round3 (sumWL / (sumN : ℚ)))
    n := sumN
    n_neg := (grp.map RawRow.n_neg).sum
    n_pos := (grp.map RawRow.n_pos).sum
    last_poll_at_utc := ((grp.map RawRow.poll_at_utc).max?).getD 0
    last_poll_at_local := ((grp.map RawRow.poll_at_local).max?).getD 0 }

/-- Embeds `rebuild_daily_from_raw` (polling_pipeline.py lines 144-197):
the daily table is fully recomputed from the raw rows, one output row per
group key. -/
def rebuild_daily_from_raw (rows : List RawRow) (bin_sec : ℤ) :
    List DailyRow :=
  (binKeys rows bin_sec).map (mkDailyRow bin_sec rows)

/-- The group key a daily row stands for. -/
def dailyKey (d : DailyRow) : ℤ × List Char × List Char :=
  (d.poll_bin_start_local, d.stop_id.data, d.line_code.data)

theorem dailyKey_mkDailyRow (bin_sec : ℤ) (rows : List RawRow)
    (k : ℤ × List Char × List Char) :
    dailyKey (mkDailyRow bin_sec rows k) = k := rfl

theorem sum_filterMap_weights (grp : List RawRow)
    (hall : ∀ r ∈ grp, r.mean_delay_s.isSome = true) :
    (grp.filterMap
      (fun r => r.mean_delay_s.map (fun m => m * (r.n : ℚ)))).sum =
    (grp.map (fun r => (r.mean_delay_s.getD 0) * (r.n : ℚ))).sum := by
  induction grp with
  | nil => rfl
  | cons r rest ih =>
    have hr := hall r (List.mem_cons_self _ _)
    match hm : r.mean_delay_s with
    | some m =>
      simp only [List.filterMap_cons, List.map_cons, hm, Option.map_some,
        Option.map_some', Option.getD_some, List.sum_cons]
      rw [ih (fun x hx => hall x (List.mem_cons_of_mem r hx))]
    | none => rw [hm] at hr; cases hr

/-- Raw rows with sub-millesimal means for the C4 counterexample; both
fall in the same 300 s bucket of stop `S`, line `RER A`. -/
def cxRow1 : RawRow :=
  { poll_at_utc := 0, poll_at_local := 0
    stop_id := "S", line_code := "RER A"
    mean_delay_s := some (1 / 1000), mean_lateness_s := some (1 / 1000)
    n := 1, n_neg := 0, n_pos := 1 }

def cxRow2 : RawRow :=
  { poll_at_utc := 60, poll_at_local := 60
    stop_id := "S", line_code := "RER A"
    mean_delay_s := some (2 / 1000), mean_lateness_s := some (2 / 1000)
    n := 2, n_neg := 0, n_pos := 2 }

end RER

/-- C4 counterexample: the daily mean is the count-weighted mean *rounded
to three decimals*, not the exact weighted mean the claim states.  For the
bucket containing `(mean=0.001, n=1)` and `(mean=0.002, n=2)` the code
yields `0.002`, while the claimed value `sum(delay_i * n_i) / sum(n_i)`
is `0.005 / 3 = 0.001666...` — the two differ. -/
theorem rebinner_rounding_counterexample :
    (RER.rebuild_daily_from_raw [RER.cxRow1, RER.cxRow2] 300).map
      RER.DailyRow.mean_delay_s = [some (1 / 500)] ∧
    (1 / 500 : ℚ) ≠ ((1 / 1000) * 1 + (2 / 1000) * 2) / ((1 : ℚ) + 2) := by
  have hgrp : RER.binGroup [RER.cxRow1, RER.cxRow2] 300
      ((0 : ℤ), ("S").data, ("RER A").data) = [RER.cxRow1, RER.cxRow2] := by
    rw [RER.binGroup, List.filter_cons, List.filter_cons, List.filter_nil]
    rw [show (decide (RER.binKey 300 RER.cxRow1 =
      ((0 : ℤ), ("S").data, ("RER A").data))) = true from by decide]
    rw [show (decide (RER.binKey 300 RER.cxRow2 =
      ((0 : ℤ), ("S").data, ("RER A").data))) = true from by decide]
    simp
  constructor
  · rw [RER.rebuild_daily_from_raw,
      show RER.binKeys [RER.cxRow1, RER.cxRow2] 300 =
        [((0 : ℤ), ("S").data, ("RER A").data)] from by decide]
    rw [List.map_cons, List.map_nil, List.map_cons, List.map_nil]
    simp only [RER.mkDailyRow, hgrp]
    norm_num [RER.cxRow1, RER.cxRow2, RER.round3, RER.roundHalfEven,
      List.filterMap_cons, Option.map_some, Option.map_some', Int.fract]
  · norm_num

/-- C4 as amended: for every bucket group whose raw rows all carry a
non-null mean and whose summed count is positive, the daily mean equals
the count-weighted mean `sum(delay_i * n_i) / sum(n_i)` rounded to three
decimal places — a weighted, not unweighted, combination; in particular
the bucket `(mean=10, n=2), (mean=20, n=8)` yields exactly 18, not the
unweighted 15. -/
theorem rebinner_weighted_mean (rows : List RER.RawRow) (bin_sec : ℤ)
    (d : RER.DailyRow) (hd : d ∈ RER.rebuild_daily_from_raw rows bin_sec)
    (hall : ∀ r ∈ RER.binGroup rows bin_sec (RER.dailyKey d),
      r.mean_delay_s.isSome = true)
    (hn : 0 <
      ((RER.binGroup rows bin_sec (RER.dailyKey d)).map RER.RawRow.n).sum) :
    d.mean_delay_s = some (RER.round3 (
      ((RER.binGroup rows bin_sec (RER.dailyKey d)).map
        (fun r => (r.mean_delay_s.getD 0) * (r.n : ℚ))).sum /
      ((((RER.binGroup rows bin_sec (RER.dailyKey d)).map
        RER.RawRow.n).sum : ℕ) : ℚ))) := by
  rw [RER.rebuild_daily_from_raw] at hd
  rcases List.mem_map.mp hd with ⟨k, _, hk⟩
  subst hk
  have hkey : RER.dailyKey (RER.mkDailyRow bin_sec rows k) = k :=
    RER.dailyKey_mkDailyRow bin_sec rows k
  rw [hkey] at hall hn ⊢
  simp only [RER.mkDailyRow]
  rw [if_neg (by omega)]
  rw [RER.sum_filterMap_weights _ hall]

namespace RER

/-- Raw rows `(mean=10, n=2)` and `(mean=20, n=8)` of one bucket, for the
C4 witness. -/
def wRow1 : RawRow :=
  { poll_at_utc := 0, poll_at_local := 0
    stop_id := "S", line_code := "RER A"
    mean_delay_s := some 10, mean_lateness_s := some 10
    n := 2, n_neg := 0, n_pos := 2 }

def wRow2 : RawRow :=
  { poll_at_utc := 60, poll_at_local := 60
    stop_id := "S", line_code := "RER A"
    mean_delay_s := some 20, mean_lateness_s := some 20
    n := 8, n_neg := 0, n_pos := 8 }

/-- The daily row the rebinner produces for that bucket. -/
def wDaily : DailyRow :=
  mkDailyRow 300 [wRow1, wRow2] ((0 : ℤ), ("S").data, ("RER A").data)

end RER

/-- Witness for C4 as amended: the bucket containing `(mean=10, n=2)` and
`(mean=20, n=8)` gets the weighted mean `(10*2 + 20*8) / 10 = 18`, not the
unweighted 15. -/
theorem rebinner_weighted_mean_witness :
    RER.wDaily.mean_delay_s = some 18 ∧ (18 : ℚ) ≠ 15 := by
  have hd : RER.wDaily ∈ RER.rebuild_daily_from_raw [RER.wRow1, RER.wRow2] 300 := by
    rw [RER.rebuild_daily_from_raw,
      show RER.binKeys [RER.wRow1, RER.wRow2] 300 =
        [((0 : ℤ), ("S").data, ("RER A").data)] from by decide]
    exact List.mem_singleton.mpr rfl
  have h := rebinner_weighted_mean [RER.wRow1, RER.wRow2] 300 RER.wDaily hd
    (by decide) (by decide)
  refine ⟨?_, by norm_num⟩
  rw [h]
  rw [show RER.binGroup [RER.wRow1, RER.wRow2] 300 (RER.dailyKey RER.wDaily) =
    [RER.wRow1, RER.wRow2] from by decide]
  norm_num [RER.wRow1, RER.wRow2, RER.round3, RER.roundHalfEven]
